import Mathlib

/-!
Verification of the MAS-PyTorch repository (src/main.py, src/utils/mas_utils.py)
against its natural-language specification.

The Python code is shallowly embedded: tensors are shape/data/device records
with exact rational data, the regularization-parameter store is an insertion
ordered association list whose keys mirror the two keying disciplines the
source uses (parameter-object identity and qualified-name strings), and
fallible Python operations (dict lookup, attribute lookup, list indexing,
reads of unbound names) return values in an Except monad with the matching
Python exception kind.
-/

set_option autoImplicit false

/-- Python exception kinds raised by the embedded code paths. -/
inductive PyErr where
  | keyError (k : String)
  | nameError (n : String)
  | attributeError (a : String)
  | indexError (msg : String)
deriving DecidableEq, Repr

/-- Torch devices used by the repository: cpu and cuda device index 0. -/
inductive Device where
  | cpu
  | cuda
deriving DecidableEq, Repr

/-- A torch tensor, modelled as a shape, flat rational data, and a device.
Float values are modelled exactly as rationals. -/
structure Tensor where
  shape : List Nat
  data : List ℚ
  device : Device
deriving DecidableEq, Repr

/-- torch.zeros(size): a zero tensor of the given shape, allocated on the cpu. -/
def torchZeros (shape : List Nat) : Tensor :=
  ⟨shape, List.replicate shape.prod 0, Device.cpu⟩

/-- tensor.to(device): move a tensor to a device (values and shape unchanged). -/
def Tensor.to (t : Tensor) (d : Device) : Tensor :=
  { t with device := d }

/-- tensor.clone(): a detached copy with the same shape, values and device. -/
def Tensor.clone (t : Tensor) : Tensor := t

/-- torch.add(a, b): elementwise sum (used with equal-shaped operands). -/
def torchAdd (a b : Tensor) : Tensor :=
  ⟨a.shape, a.data.zipWith (· + ·) b.data, a.device⟩

/-- tensor.size(d): the d-th entry of the shape. -/
def Tensor.size (t : Tensor) (d : Nat) : Nat :=
  t.shape.getD d 0

/-- One entry of model.tmodel.named_parameters(): the qualified name, the
parameter tensor, its requires_grad flag, and pid, the Python object identity
of the parameter (distinct parameters are distinct objects). -/
structure Param where
  pid : Nat
  name : String
  data : Tensor
  requires_grad : Bool
deriving DecidableEq, Repr

/-- A key of the reg_params dictionary.  The source keys the store by the
parameter object (byParam) in init_reg_params, init_reg_params_across_tasks
and in consolidate_reg_params writes, but consolidate_reg_params reads by
the qualified-name string (byName). -/
inductive PKey where
  | byParam (pid : Nat)
  | byName (s : String)
deriving DecidableEq, Repr

/-- One reg_params record.  prev_omega models the optional dict field
written by init_reg_params_across_tasks and deleted by
consolidate_reg_params. -/
structure ParamDict where
  omega : Tensor
  init_val : Tensor
  prev_omega : Option Tensor
deriving DecidableEq, Repr

/-- The reg_params dictionary: an insertion-ordered association list. -/
abbrev RegParams : Type := List (PKey × ParamDict)

/-- Python dict lookup by key. -/
def RegParams.find : RegParams → PKey → Option ParamDict
  | [], _ => none
  | (k', v) :: rest, k => if k' = k then some v else RegParams.find rest k

/-- Python dict assignment: replace the value at an existing key in place,
otherwise append the new entry (insertion order preserved). -/
def RegParams.insert : RegParams → PKey → ParamDict → RegParams
  | [], k, v => [(k, v)]
  | (k', v') :: rest, k, v =>
    if k' = k then (k, v) :: rest else (k', v') :: RegParams.insert rest k v

/-- Number of entries carrying a given key (1 at most for dict-built stores). -/
def RegParams.countKey : RegParams → PKey → Nat
  | [], _ => 0
  | (k', _) :: rest, k => (if k' = k then 1 else 0) + RegParams.countKey rest k

/-- The shared model handle: the list produced by
model.tmodel.named_parameters() plus the model.reg_params slot. -/
structure Model where
  params : List Param
  reg_params : RegParams

/-- torch.device("cuda:0" if use_gpu else "cpu"). -/
def torch_device (use_gpu : Bool) : Device :=
  if use_gpu then Device.cuda else Device.cpu

/-- Left fold of a fallible Python loop body: the first raised exception
aborts the loop and propagates. -/
def pyFoldl {σ α : Type} (f : σ → α → Except PyErr σ) : σ → List α → Except PyErr σ
  | s, [] => .ok s
  | s, a :: l =>
    match f s a with
    | .error e => .error e
    | .ok s' => pyFoldl f s' l

/-- Loop body of init_reg_params (mas_utils.py lines 37-52): for a parameter
whose name is not in freeze_layers, build omega = torch.zeros(param.size())
moved to the device, init_val = param.data.clone(), and store the record
keyed by the parameter object. -/
def init_step (device : Device) (freeze_layers : List String)
    (reg_params : RegParams) (pr : Param) : RegParams :=
  if ¬ (pr.name ∈ freeze_layers) then
    let omega := (torchZeros pr.data.shape).to device
    let init_val := pr.data.clone
    reg_params.insert (PKey.byParam pr.pid) ⟨omega, init_val, none⟩
  else reg_params

/-- init_reg_params (mas_utils.py lines 20-56): rebuild model.reg_params from
scratch over all named parameters not in the freeze list. -/
def init_reg_params (model : Model) (use_gpu : Bool) (freeze_layers : List String) : Model :=
  let device := torch_device use_gpu
  let reg_params := model.params.foldl (init_step device freeze_layers) []
  { model with reg_params := reg_params }

/-- Loop body of init_reg_params_across_tasks (mas_utils.py lines 78-102):
look the record up by the parameter object (KeyError when absent), keep the
old omega as prev_omega, re-zero omega on the device, and refresh init_val
to a clone of the parameter's current value moved to the device. -/
def across_step (device : Device) (freeze_layers : List String)
    (reg_params : RegParams) (pr : Param) : Except PyErr RegParams :=
  if ¬ (pr.name ∈ freeze_layers) then
    match reg_params.find (PKey.byParam pr.pid) with
    | none => .error (PyErr.keyError pr.name)
    | some param_dict =>
      let prev_omega := param_dict.omega
      let new_omega := (torchZeros pr.data.shape).to device
      let init_val := (pr.data.clone).to device
      .ok (reg_params.insert (PKey.byParam pr.pid) ⟨new_omega, init_val, some prev_omega⟩)
  else .ok reg_params

/-- init_reg_params_across_tasks (mas_utils.py lines 59-106). -/
def init_reg_params_across_tasks (model : Model) (use_gpu : Bool)
    (freeze_layers : List String) : Except PyErr Model :=
  let device := torch_device use_gpu
  match pyFoldl (across_step device freeze_layers) model.reg_params model.params with
  | .error e => .error e
  | .ok reg_params => .ok { model with reg_params := reg_params }

/-- Loop body of consolidate_reg_params (mas_utils.py lines 125-140): the
record is read with reg_params[name] (a name-string key), its prev_omega
field is read (KeyError when the field is absent), the sum
torch.add(prev_omega, omega) replaces omega, prev_omega is deleted, and the
record is written back with reg_params[param] (a parameter-object key). -/
def consolidate_step (reg_params : RegParams) (pr : Param) : Except PyErr RegParams :=
  match reg_params.find (PKey.byName pr.name) with
  | none => .error (PyErr.keyError pr.name)
  | some param_dict =>
    match param_dict.prev_omega with
    | none => .error (PyErr.keyError "prev_omega")
    | some prev_omega =>
      let new_omega := torchAdd prev_omega param_dict.omega
      .ok (reg_params.insert (PKey.byParam pr.pid) ⟨new_omega, param_dict.init_val, none⟩)

/-- consolidate_reg_params (mas_utils.py lines 109-144).  The use_gpu
argument is accepted and unused, as in the source. -/
def consolidate_reg_params (model : Model) (use_gpu : Bool) : Except PyErr Model :=
  let _ := use_gpu
  match pyFoldl consolidate_step model.reg_params model.params with
  | .error e => .error e
  | .ok reg_params => .ok { model with reg_params := reg_params }

/-- A parameter of the backbone as seen by create_freeze_layers: only its
requires_grad flag is touched there. -/
structure FParam where
  requires_grad : Bool
deriving DecidableEq, Repr

/-- A direct child module of model.tmodel.features: whether it is a
torch.nn.modules.conv.Conv2d, and its parameters. -/
structure FLayer where
  isConv : Bool
  params : List FParam
deriving DecidableEq, Repr

/-- The backbone as seen by create_freeze_layers: the classifier head's
parameters and the ordered children of the features stack.  The positional
key of features child i in features._modules is the decimal string of i. -/
structure FModel where
  classifier : List FParam
  features : List FLayer
deriving DecidableEq, Repr

/-- The heterogeneous return value of create_freeze_layers: the bare empty
list returned on line 287 for a zero layer count, or the two-element list
[model, freeze_layers] returned on line 312. -/
inductive CFLResult where
  | emptyList
  | modelAndList (model : FModel) (freeze_layers : List String)
deriving DecidableEq, Repr

/-- Whether a create_freeze_layers result carries the model reference. -/
def CFLResult.hasModel : CFLResult → Bool
  | CFLResult.emptyList => false
  | CFLResult.modelAndList _ _ => true

/-- Set requires_grad on a parameter list. -/
def setGrad (ps : List FParam) (b : Bool) : List FParam :=
  ps.map (fun p => { p with requires_grad := b })

/-- mas_utils.py lines 279-283: requires_grad := True on every classifier
parameter, requires_grad := False on every features parameter. -/
def freezeBase (m : FModel) : FModel :=
  { m with
    classifier := setGrad m.classifier true,
    features := m.features.map (fun L => { L with params := setGrad L.params false }) }

/-- mas_utils.py lines 293-295: the positional keys of the Conv2d children
of the features stack, in forward order. -/
def convKeys (m : FModel) : List String :=
  ((m.features.enum.filter (fun x => x.2.isConv)).map (fun x => toString x.1))

/-- Python negative indexing l[-num] for num >= 1: valid exactly when
num <= len(l), else IndexError.  Call sites pass num >= 1. -/
def pyGetNeg (l : List String) (num : Nat) : Except PyErr String :=
  if h : 1 ≤ num ∧ num ≤ l.length then
    .ok (l.get ⟨l.length - num, by omega⟩)
  else .error (PyErr.indexError "list index out of range")

/-- mas_utils.py lines 302-303: requires_grad := True on the parameters of
features[int(temp_key)]. -/
def setFeatureLayerTrainable (m : FModel) (temp_key : String) : FModel :=
  let idx := (temp_key.toNat?).getD 0
  match m.features.get? idx with
  | none => m
  | some L => { m with features := m.features.set idx { L with params := setGrad L.params true } }

/-- The loop of mas_utils.py lines 298-309 over num in range(1, no_of_layers+1):
pick temp_key = temp_list[-num], un-freeze that features child, and append
"features." + temp_key + "weight" and "features." + temp_key + "bias". -/
def cflGo (temp_list : List String) :
    List Nat → FModel → List String → Except PyErr (FModel × List String)
  | [], m, freeze_layers => .ok (m, freeze_layers)
  | num :: nums, m, freeze_layers =>
    match pyGetNeg temp_list num with
    | .error e => .error e
    | .ok temp_key =>
      let m := setFeatureLayerTrainable m temp_key
      let name_1 := "features." ++ temp_key ++ "weight"
      let name_2 := "features." ++ temp_key ++ "bias"
      cflGo temp_list nums m (freeze_layers ++ [name_1, name_2])

/-- create_freeze_layers (mas_utils.py lines 263-312). -/
def create_freeze_layers (model : FModel) (no_of_layers : Nat) : Except PyErr CFLResult :=
  let model := freezeBase model
  if no_of_layers == 0 then .ok CFLResult.emptyList
  else
    let temp_list := convKeys model
    match cflGo temp_list (List.range' 1 no_of_layers) model [] with
    | .error e => .error e
    | .ok (m, freeze_layers) => .ok (CFLResult.modelAndList m freeze_layers)

/-- A batch yielded by a data loader: the input tensor and the label tensor. -/
structure Batch where
  inputs : Tensor
  labels : Tensor
deriving DecidableEq, Repr

/-- The dict of data loaders handed to compute_omega_grads_norm, which
iterates dataloader['train'] (mas_utils.py line 157). -/
structure DLoaders where
  train : List Batch
deriving DecidableEq, Repr

/-- The model handle used by the omega estimators: the shared model (for
model.reg_params), the wrapped network model.tmodel as a forward function
on tensors (AlexNet itself is external to the repository), and the
training/evaluation mode flag of the wrapped network. -/
structure NModel where
  base : Model
  forward : Tensor → Tensor
  training : Bool

/-- Calls made on the optimizer object (defined in optimizer_lib.py, a file
the repository references but does not contain) and on the autograd engine,
recorded as events in order. -/
inductive OptEvent where
  | zero_grad
  | backward (retain_graph : Bool)
  | step_norm (reg_params : RegParams) (index : Nat) (batch_size : Nat)
  | step_vec (reg_params : RegParams) (flag : Bool) (index : Nat) (batch_size : Nat)

/-- The name use_gpu as resolved inside mas_utils functions: a module-level
global of mas_utils.py, where it is never bound, so reading it raises
NameError (lines 162 and 212). -/
def mas_utils_global_use_gpu : Except PyErr Bool :=
  .error (PyErr.nameError "use_gpu")

/-- The name dset_loaders read by compute_omega_grads_vector on line 206:
never bound in mas_utils.py, so reading it raises NameError. -/
def mas_utils_global_dset_loaders : Except PyErr (List (List Batch)) :=
  .error (PyErr.nameError "dset_loaders")

/-- The name node_no read by compute_omega_grads_vector on line 227: never
bound in mas_utils.py (the loop variable is unit_no), so reading it raises
NameError. -/
def mas_utils_global_node_no : Except PyErr Nat :=
  .error (PyErr.nameError "node_no")

/-- The rows of a 2-d tensor of shape [n, c]. -/
def Tensor.rows (t : Tensor) : List (List ℚ) :=
  (List.range (t.size 0)).map (fun i => (t.data.drop (i * t.size 1)).take (t.size 1))

/-- torch.norm(outputs, 2, dim=1): the per-row L2 norm.  The square root on
the rational-modelled scalars is the external library's, so it is supplied as
the argument sqrt; no claim depends on its values. -/
def torchNorm2Dim1 (sqrt : ℚ → ℚ) (t : Tensor) : Tensor :=
  ⟨[t.size 0], t.rows.map (fun r => sqrt (r.foldl (fun a x => a + x * x) 0)), t.device⟩

/-- Elementwise natural power of a tensor. -/
def tensorPow (t : Tensor) (k : Nat) : Tensor :=
  { t with data := t.data.map (· ^ k) }

/-- torch.sum of all entries, as a scalar. -/
def torchSum (t : Tensor) : ℚ :=
  t.data.foldl (· + ·) 0

/-- outputs[:, unit_no]: one output unit's column across the batch. -/
def tensorCol (t : Tensor) (unit_no : Nat) : Tensor :=
  ⟨[t.size 0], t.rows.map (fun r => r.getD unit_no 0), t.device⟩

/-- The per-batch body of compute_omega_grads_norm (mas_utils.py lines
157-189).  ug_src is how the body resolves the name use_gpu; the source
resolves it as the unbound module global mas_utils_global_use_gpu.  The
state is the running batch index and the event trace. -/
def norm_batch (sqrt : ℚ → ℚ) (ug_src : Except PyErr Bool) (model : NModel)
    (st : Nat × List OptEvent) (data : Batch) : Except PyErr (Nat × List OptEvent) := do
  let (index, tr) := st
  let inputs := data.inputs
  let labels := data.labels
  -- line 162: if(use_gpu)
  let use_gpu ← ug_src
  let (inputs, labels) :=
    if use_gpu then (inputs.to Device.cuda, labels.to Device.cuda) else (inputs, labels)
  -- line 167: optimizer.zero_grad()
  let tr := tr ++ [OptEvent.zero_grad]
  -- line 170: outputs = model.tmodel(inputs); line 171: del inputs
  let outputs := model.forward inputs
  -- line 174: l2_norm = torch.norm(outputs, 2, dim = 1); line 175: del outputs
  let l2_norm := torchNorm2Dim1 sqrt outputs
  -- line 177: squared_l2_norm = l2_norm**2
  let squared_l2_norm : Option Tensor := some (tensorPow l2_norm 2)
  -- line 178: del squared_l2_norm
  let squared_l2_norm : Option Tensor := none
  -- line 180: sum_norm = torch.sum(squared_l2_norm) reads the deleted name
  let sq ← (match squared_l2_norm with
    | some t => Except.ok t
    | none => Except.error (PyErr.nameError "squared_l2_norm"))
  let sum_norm := torchSum sq
  let _ := sum_norm
  -- line 183: sum_norm.backward()
  let tr := tr ++ [OptEvent.backward false]
  -- line 186: optimizer.step(model.reg_params, index, labels.size(0))
  let tr := tr ++ [OptEvent.step_norm model.base.reg_params index (labels.size 0)]
  -- line 189: index = index + 1
  pure (index + 1, tr)

/-- compute_omega_grads_norm (mas_utils.py lines 147-191). -/
def compute_omega_grads_norm (sqrt : ℚ → ℚ) (model : NModel) (dataloader : DLoaders) :
    Except PyErr (NModel × List OptEvent) := do
  -- line 154: model.tmodel.eval()
  let model := { model with training := false }
  let st ← pyFoldl (norm_batch sqrt mas_utils_global_use_gpu model) (0, []) dataloader.train
  pure (model, st.2)

/-- Variant of compute_omega_grads_norm with use_gpu supplied as an explicit
argument, the treatment the specification prescribes for the unbound global
(spec section 4.4).  Everything else is unchanged. -/
def compute_omega_grads_norm_explicit (sqrt : ℚ → ℚ) (use_gpu : Bool) (model : NModel)
    (dataloader : DLoaders) : Except PyErr (NModel × List OptEvent) := do
  let model := { model with training := false }
  let st ← pyFoldl (norm_batch sqrt (Except.ok use_gpu) model) (0, []) dataloader.train
  pure (model, st.2)

/-- The per-unit body of compute_omega_grads_vector (mas_utils.py lines
222-236), folded over unit_no in range(outputs.size(1)).  nn_src is how the
body resolves the name node_no; the source resolves it as the unbound
module global mas_utils_global_node_no. -/
def vector_unit (nn_src : Except PyErr Nat) (model : NModel) (outputs : Tensor)
    (index : Nat) (bsize : Nat) (tr : List OptEvent) (unit_no : Nat) :
    Except PyErr (List OptEvent) := do
  -- line 223: ith_node = outputs[:, unit_no]; line 224: targets = torch.sum(ith_node)
  let ith_node := tensorCol outputs unit_no
  let targets := torchSum ith_node
  let _ := targets
  -- line 227: if(node_no == outputs.size(1)-1)
  let node_no ← nn_src
  let tr :=
    if node_no == outputs.size 1 - 1 then
      -- line 228: targets.backward()
      tr ++ [OptEvent.backward false]
    else
      -- line 231: targets.backward(retain_graph = True)
      tr ++ [OptEvent.backward true]
  -- line 233: optimizer.step(model.reg_params, False, index, labels.size(0))
  let tr := tr ++ [OptEvent.step_vec model.base.reg_params false index bsize]
  -- line 236: optimizer.zero_grad()
  let tr := tr ++ [OptEvent.zero_grad]
  pure tr

/-- The per-batch body of compute_omega_grads_vector (mas_utils.py lines
207-240).  ug_src is how the body resolves the name use_gpu on line 212. -/
def vector_batch (ug_src : Except PyErr Bool) (nn_src : Except PyErr Nat) (model : NModel)
    (st : Nat × List OptEvent) (data : Batch) : Except PyErr (Nat × List OptEvent) := do
  let (index, tr) := st
  let inputs := data.inputs
  let labels := data.labels
  -- line 212: if(use_gpu)
  let use_gpu ← ug_src
  let (inputs, labels) :=
    if use_gpu then (inputs.to Device.cuda, labels.to Device.cuda) else (inputs, labels)
  -- line 217: optimizer.zero_grad()
  let tr := tr ++ [OptEvent.zero_grad]
  -- line 220: outputs = model.tmodel(inputs)
  let outputs := model.forward inputs
  -- lines 222-236: for unit_no in range(0, outputs.size(1))
  let tr ← pyFoldl (vector_unit nn_src model outputs index (labels.size 0))
      tr (List.range (outputs.size 1))
  -- line 239: optimizer.step(model.reg_params, True, index, labels.size(0))
  let tr := tr ++ [OptEvent.step_vec model.base.reg_params true index (labels.size 0)]
  -- line 240: index = index + 1
  pure (index + 1, tr)

/-- The body of compute_omega_grads_vector, parameterized by how the names
dset_loaders (line 206), use_gpu (line 212) and node_no (line 227) resolve. -/
def vector_core (dl_src : Except PyErr (List (List Batch))) (ug_src : Except PyErr Bool)
    (nn_src : Except PyErr Nat) (model : NModel) : Except PyErr (NModel × List OptEvent) := do
  -- line 201: model.tmodel.train(False); line 202: model.tmodel.eval(True):
  -- evaluation-mode switches on the wrapped network
  let model := { model with training := false }
  -- line 206: for dataloader in dset_loaders
  let dls ← dl_src
  let st ← pyFoldl (fun st dloader => pyFoldl (vector_batch ug_src nn_src model) st dloader)
      (0, []) dls
  pure (model, st.2)

/-- compute_omega_grads_vector (mas_utils.py lines 195-242).  The dataloader
parameter is shadowed by the loop variable on line 206 and never read; the
loop iterates the unbound module global dset_loaders. -/
def compute_omega_grads_vector (model : NModel) (dataloader : List Batch) :
    Except PyErr (NModel × List OptEvent) :=
  let _ := dataloader
  vector_core mas_utils_global_dset_loaders mas_utils_global_use_gpu
    mas_utils_global_node_no model

/-- Variant of compute_omega_grads_vector with dset_loaders taken to be the
supplied dataloader and use_gpu supplied as an explicit argument, the
treatment the specification prescribes for those unbound globals (spec
section 4.4).  The name node_no is left exactly as in the source. -/
def compute_omega_grads_vector_explicit (use_gpu : Bool) (model : NModel)
    (dataloader : List Batch) : Except PyErr (NModel × List OptEvent) :=
  vector_core (Except.ok [dataloader]) (Except.ok use_gpu)
    mas_utils_global_node_no model

/-- A value stored on the argparse namespace object. -/
inductive PyVal where
  | bool (b : Bool)
  | int (i : Int)
deriving DecidableEq, Repr

/-- The argparse namespace returned by parser.parse_args() in main.py: the
attribute names are derived from the declared flags. -/
structure Args where
  attrs : List (String × PyVal)
deriving DecidableEq, Repr

/-- Lookup in an attribute list by name. -/
def attrLookup : List (String × PyVal) → String → Except PyErr PyVal
  | [], a => .error (PyErr.attributeError a)
  | (a', v) :: rest, a => if a' = a then .ok v else attrLookup rest a

/-- Attribute lookup on the argparse namespace: AttributeError when the
attribute was never set. -/
def Args.getattr (args : Args) (a : String) : Except PyErr PyVal :=
  attrLookup args.attrs a

/-- parser.parse_args() for the parser built in main.py lines 29-34: the
flags --use_gpu (default False), --batch_size (default 32) and
--num_freeze_layers (default 2) are stored under the attribute names
argparse derives from the flags; an omitted flag takes its default. -/
def parse_args (use_gpu : Option Bool) (batch_size : Option Int)
    (num_freeze_layers : Option Int) : Args :=
  ⟨[("use_gpu", PyVal.bool (use_gpu.getD false)),
    ("batch_size", PyVal.int (batch_size.getD 32)),
    ("num_freeze_layers", PyVal.int (num_freeze_layers.getD 2))]⟩

/-- main.py line 37: no_of_layers = args.freeze_layers.  This is the value
subsequently passed to every mas_train call (main.py line 112) as the
freeze-layer count. -/
def main_no_of_layers (args : Args) : Except PyErr PyVal :=
  args.getattr "freeze_layers"

/-- The name sys read on main.py line 22 (sys.path.append): main.py never
imports sys, so module execution raises NameError there. -/
def main_global_sys : Except PyErr Unit :=
  .error (PyErr.nameError "sys")

/-- Concrete inputs used by the closed theorems and witnesses below. -/

def wParam : Param :=
  ⟨0, "classifier.1.weight", ⟨[2], [1, 2], Device.cpu⟩, true⟩

def wParam2 : Param :=
  ⟨1, "features.0.weight", ⟨[1], [3], Device.cpu⟩, false⟩

def wModel : Model := ⟨[wParam, wParam2], []⟩

def wStore : RegParams :=
  [(PKey.byParam 0, ⟨⟨[2], [5, 6], Device.cpu⟩, ⟨[2], [1, 2], Device.cpu⟩, none⟩),
   (PKey.byParam 1, ⟨⟨[1], [7], Device.cpu⟩, ⟨[1], [3], Device.cpu⟩, none⟩)]

def wModelS : Model := ⟨[wParam, wParam2], wStore⟩

/-- A model state in which the record of every parameter holds a prev_omega
field, as left by init_reg_params_across_tasks. -/
def wModelPrev : Model :=
  ⟨[wParam],
   [(PKey.byParam 0,
     ⟨⟨[2], [5, 6], Device.cpu⟩, ⟨[2], [1, 2], Device.cpu⟩, some ⟨[2], [3, 4], Device.cpu⟩⟩)]⟩

def wNModel : NModel := ⟨wModel, fun t => t, true⟩

def wBatch : Batch := ⟨⟨[1, 2], [1, 2], Device.cpu⟩, ⟨[1], [0], Device.cpu⟩⟩

def wFModel : FModel :=
  ⟨[⟨false⟩],
   [⟨true, [⟨true⟩, ⟨true⟩]⟩, ⟨false, [⟨true⟩]⟩, ⟨true, [⟨true⟩, ⟨true⟩]⟩,
    ⟨true, [⟨true⟩, ⟨true⟩]⟩]⟩

/-- Whether an optionally present store record has omega and init_val of the
owning parameter's shape. -/
def shapeOK (p : Param) : Option ParamDict → Bool
  | none => true
  | some d => d.omega.shape == p.data.shape && d.init_val.shape == p.data.shape

/-- Shape invariant of the store (spec section 8, property 3): every record
owned by a parameter has omega and init_val shaped like that parameter. -/
def ShapeInv (m : Model) : Prop :=
  ∀ p ∈ m.params, shapeOK p (m.reg_params.find (PKey.byParam p.pid)) = true

/-- C3's property of the store left by init_reg_params with freeze list F:
exactly one record per trainable parameter whose name is not in F, none for
parameters whose name is in F, and every record of a non-excluded parameter
holds a zero omega of the parameter's shape and a detached copy of the
parameter's current value as init_val. -/
def InitStoreSpec (m : Model) (use_gpu : Bool) (F : List String) : Prop :=
  (∀ p ∈ m.params, p.requires_grad = true → ¬ p.name ∈ F →
    (init_reg_params m use_gpu F).reg_params.countKey (PKey.byParam p.pid) = 1) ∧
  (∀ p ∈ m.params, ¬ p.name ∈ F →
    ∃ d, (init_reg_params m use_gpu F).reg_params.find (PKey.byParam p.pid) = some d ∧
      d.omega.shape = p.data.shape ∧
      d.omega.data = List.replicate p.data.shape.prod 0 ∧
      d.init_val.shape = p.data.shape ∧
      d.init_val.data = p.data.data ∧
      d.prev_omega = none) ∧
  (∀ p ∈ m.params, p.name ∈ F →
    (init_reg_params m use_gpu F).reg_params.find (PKey.byParam p.pid) = none)

/-- C6's property of init_reg_params_across_tasks: the call succeeds and,
for each non-excluded parameter, its record's prev_omega is the omega the
record held before the call, its omega is a fresh zero tensor of the
parameter's shape, and its init_val carries the parameter's current value. -/
def AcrossTasksSpec (m : Model) (use_gpu : Bool) (fl : List String) : Prop :=
  ∃ m₂, init_reg_params_across_tasks m use_gpu fl = .ok m₂ ∧
    ∀ p ∈ m.params, ¬ p.name ∈ fl →
      ∃ d₀ d₂, m.reg_params.find (PKey.byParam p.pid) = some d₀ ∧
        m₂.reg_params.find (PKey.byParam p.pid) = some d₂ ∧
        d₂.prev_omega = some d₀.omega ∧
        d₂.omega.shape = p.data.shape ∧
        d₂.omega.data = List.replicate p.data.shape.prod 0 ∧
        d₂.init_val.shape = p.data.shape ∧
        d₂.init_val.data = p.data.data

/-- C7's property: the shape invariant holds after init_reg_params, after
any completing init_reg_params_across_tasks on that state, and after any
completing consolidate_reg_params on the latter state. -/
def LifecycleShapeSpec (m : Model) (u₁ : Bool) (F₁ : List String)
    (u₂ : Bool) (F₂ : List String) : Prop :=
  ShapeInv (init_reg_params m u₁ F₁) ∧
  (∀ m₂, init_reg_params_across_tasks (init_reg_params m u₁ F₁) u₂ F₂ = .ok m₂ →
    ShapeInv m₂) ∧
  (∀ m₂ m₃, init_reg_params_across_tasks (init_reg_params m u₁ F₁) u₂ F₂ = .ok m₂ →
    consolidate_reg_params m₂ u₂ = .ok m₃ → ShapeInv m₃)

/-- C10's property: init_reg_params moves omega to the selected device but
leaves init_val on the parameter's device, whereas
init_reg_params_across_tasks moves init_val to the selected device too. -/
def DevicePlacementSpec (m : Model) (use_gpu : Bool) (F : List String) (p : Param) : Prop :=
  (∃ d, (init_reg_params m use_gpu F).reg_params.find (PKey.byParam p.pid) = some d ∧
    d.omega.device = torch_device use_gpu ∧
    d.init_val.device = p.data.device ∧
    (torch_device use_gpu ≠ p.data.device → d.omega.device ≠ d.init_val.device)) ∧
  (∀ m₂, init_reg_params_across_tasks m use_gpu F = .ok m₂ →
    ∃ d₂, m₂.reg_params.find (PKey.byParam p.pid) = some d₂ ∧
      d₂.omega.device = torch_device use_gpu ∧
      d₂.init_val.device = torch_device use_gpu)

/-- C2's property of create_freeze_layers for a count k between 1 and the
number of Conv2d children: it returns the model and a freeze list of exactly
2*k entries, the list being, for each of the last k convolutional keys of
the feature stack (taken from the end), the pair of strings
"features." + key + "weight" and "features." + key + "bias" with no dot
before the suffix. -/
def FreezeListSpec (m : FModel) (k : Nat) : Prop :=
  ∃ m' fl, create_freeze_layers m k = .ok (CFLResult.modelAndList m' fl) ∧
    fl.length = 2 * k ∧
    fl = (((convKeys m).drop ((convKeys m).length - k)).reverse.flatMap
      (fun key => ["features." ++ key ++ "weight", "features." ++ key ++ "bias"])) ∧
    (∀ e ∈ fl, ∃ key, key ∈ (convKeys m).drop ((convKeys m).length - k) ∧
      (e = "features." ++ key ++ "weight" ∨ e = "features." ++ key ++ "bias"))

/-- C8 as amended: for a count k between 1 and the number of Conv2d
children, create_freeze_layers returns the model together with the freeze
list, while for a zero count it returns a bare empty list without the model
reference. -/
def PolicyReturnSpec (m : FModel) (k : Nat) : Prop :=
  (∃ m' fl, create_freeze_layers m k = .ok (CFLResult.modelAndList m' fl)) ∧
  create_freeze_layers m 0 = .ok CFLResult.emptyList

theorem RegParams.find_insert_self (rp : RegParams) (k : PKey) (v : ParamDict) :
    (rp.insert k v).find k = some v := by
  induction rp with
  | nil => simp [RegParams.insert, RegParams.find]
  | cons kv rest ih =>
    obtain ⟨k', v'⟩ := kv
    by_cases h : k' = k
    · simp [RegParams.insert, RegParams.find, h]
    · simp [RegParams.insert, RegParams.find, h, ih]

theorem RegParams.find_insert_ne (rp : RegParams) (k k₂ : PKey) (v : ParamDict)
    (h : k ≠ k₂) : (rp.insert k v).find k₂ = rp.find k₂ := by
  induction rp with
  | nil => simp [RegParams.insert, RegParams.find, h]
  | cons kv rest ih =>
    obtain ⟨k', v'⟩ := kv
    by_cases h' : k' = k
    · subst h'
      simp [RegParams.insert, RegParams.find, h]
    · simp [RegParams.insert, RegParams.find, h', ih]

theorem RegParams.insert_of_find_none (rp : RegParams) (k : PKey) (v : ParamDict)
    (h : rp.find k = none) : rp.insert k v = rp ++ [(k, v)] := by
  induction rp with
  | nil => rfl
  | cons kv rest ih =>
    obtain ⟨k', v'⟩ := kv
    by_cases h' : k' = k
    · simp [RegParams.find, h'] at h
    · simp only [RegParams.find, h', if_false] at h
      simp [RegParams.insert, h', ih h]

theorem RegParams.find_append_left (rp₁ rp₂ : RegParams) (k : PKey) (v : ParamDict)
    (h : rp₁.find k = some v) :
    RegParams.find (rp₁ ++ rp₂) k = some v := by
  induction rp₁ with
  | nil => simp [RegParams.find] at h
  | cons kv rest ih =>
    obtain ⟨k', v'⟩ := kv
    by_cases h' : k' = k
    · simp [RegParams.find, h'] at h
      simp [RegParams.find, h', h]
    · simp only [RegParams.find, h', if_false] at h
      simp [RegParams.find, h', ih h]

theorem RegParams.find_append_right (rp₁ rp₂ : RegParams) (k : PKey)
    (h : rp₁.find k = none) :
    RegParams.find (rp₁ ++ rp₂) k = rp₂.find k := by
  induction rp₁ with
  | nil => rfl
  | cons kv rest ih =>
    obtain ⟨k', v'⟩ := kv
    by_cases h' : k' = k
    · simp [RegParams.find, h'] at h
    · simp only [RegParams.find, h', if_false] at h
      simp [RegParams.find, h', ih h]

theorem RegParams.find_singleton_ne (k k₂ : PKey) (v : ParamDict) (h : k ≠ k₂) :
    RegParams.find [(k, v)] k₂ = none := by
  simp [RegParams.find, h]

theorem init_fold_eq (dev : Device) (fl : List String) (ps : List Param) (rp₀ : RegParams)
    (habs : ∀ p ∈ ps, ¬ p.name ∈ fl → rp₀.find (PKey.byParam p.pid) = none)
    (hids : (ps.map Param.pid).Nodup) :
    ps.foldl (init_step dev fl) rp₀ =
      rp₀ ++ (ps.filter (fun p => ¬ p.name ∈ fl)).map
        (fun p => (PKey.byParam p.pid,
          (⟨(torchZeros p.data.shape).to dev, p.data.clone, none⟩ : ParamDict))) := by
  induction ps generalizing rp₀ with
  | nil => simp
  | cons p ps ih =>
    simp only [List.map_cons, List.nodup_cons] at hids
    by_cases hpn : p.name ∈ fl
    · have hstep : init_step dev fl rp₀ p = rp₀ := by
        simp [init_step, hpn]
      have hfil : (List.filter (fun p => ¬ p.name ∈ fl) (p :: ps)) =
          List.filter (fun p => ¬ p.name ∈ fl) ps := by
        simp [List.filter_cons, hpn]
      rw [List.foldl_cons, hstep, hfil]
      exact ih rp₀ (fun q hq => habs q (List.mem_cons_of_mem p hq)) hids.2
    · have hstep : init_step dev fl rp₀ p =
          rp₀ ++ [(PKey.byParam p.pid,
            (⟨(torchZeros p.data.shape).to dev, p.data.clone, none⟩ : ParamDict))] := by
        simp only [init_step, hpn, not_false_iff, if_pos]
        exact RegParams.insert_of_find_none rp₀ _ _ (habs p (List.mem_cons_self p ps) hpn)
      have hfil : (List.filter (fun p => ¬ p.name ∈ fl) (p :: ps)) =
          p :: List.filter (fun p => ¬ p.name ∈ fl) ps := by
        simp [List.filter_cons, hpn]
      rw [List.foldl_cons, hstep, hfil]
      have habs' : ∀ q ∈ ps, ¬ q.name ∈ fl →
          (rp₀ ++ [(PKey.byParam p.pid,
            (⟨(torchZeros p.data.shape).to dev, p.data.clone, none⟩ : ParamDict))]).find
            (PKey.byParam q.pid) = none := by
        intro q hq hqn
        rw [RegParams.find_append_right _ _ _ (habs q (List.mem_cons_of_mem p hq) hqn)]
        apply RegParams.find_singleton_ne
        intro hcontra
        apply hids.1
        have : p.pid = q.pid := by
          injection hcontra
        rw [this]
        exact List.mem_map_of_mem Param.pid hq
      rw [ih _ habs' hids.2, List.append_assoc]
      rfl

theorem init_reg_params_store (m : Model) (use_gpu : Bool) (F : List String)
    (hids : (m.params.map Param.pid).Nodup) :
    (init_reg_params m use_gpu F).reg_params =
      (m.params.filter (fun p => ¬ p.name ∈ F)).map
        (fun p => (PKey.byParam p.pid,
          (⟨(torchZeros p.data.shape).to (torch_device use_gpu), p.data.clone, none⟩ :
            ParamDict))) := by
  show m.params.foldl (init_step (torch_device use_gpu) F) [] = _
  rw [init_fold_eq (torch_device use_gpu) F m.params []
    (fun p _ _ => rfl) hids]
  rfl

theorem find_paramMap (f : Param → ParamDict) (ps : List Param) (p : Param)
    (hp : p ∈ ps) (hids : (ps.map Param.pid).Nodup) :
    RegParams.find (ps.map (fun q => (PKey.byParam q.pid, f q))) (PKey.byParam p.pid) =
      some (f p) := by
  induction ps with
  | nil => cases hp
  | cons q ps ih =>
    simp only [List.map_cons, List.nodup_cons] at hids
    rcases List.mem_cons.mp hp with hpq | hp'
    · subst hpq
      simp [RegParams.find]
    · have hne : PKey.byParam q.pid ≠ PKey.byParam p.pid := by
        intro hcontra
        apply hids.1
        have : q.pid = p.pid := by
          injection hcontra
        rw [this]
        exact List.mem_map_of_mem Param.pid hp'
      show RegParams.find ((PKey.byParam q.pid, f q) ::
        ps.map (fun q => (PKey.byParam q.pid, f q))) (PKey.byParam p.pid) = some (f p)
      simp only [RegParams.find, hne, if_false]
      exact ih hp' hids.2

theorem find_paramMap_none (f : Param → ParamDict) (ps : List Param) (k : PKey)
    (hk : ∀ q ∈ ps, k ≠ PKey.byParam q.pid) :
    RegParams.find (ps.map (fun q => (PKey.byParam q.pid, f q))) k = none := by
  induction ps with
  | nil => rfl
  | cons q ps ih =>
    show RegParams.find ((PKey.byParam q.pid, f q) ::
      ps.map (fun q => (PKey.byParam q.pid, f q))) k = none
    have hne : PKey.byParam q.pid ≠ k := fun h =>
      hk q (List.mem_cons_self q ps) h.symm
    simp only [RegParams.find, hne, if_false]
    exact ih (fun r hr => hk r (List.mem_cons_of_mem q hr))

theorem countKey_paramMap_zero (f : Param → ParamDict) (ps : List Param) (k : PKey)
    (hk : ∀ q ∈ ps, k ≠ PKey.byParam q.pid) :
    RegParams.countKey (ps.map (fun q => (PKey.byParam q.pid, f q))) k = 0 := by
  induction ps with
  | nil => rfl
  | cons q ps ih =>
    have hne : PKey.byParam q.pid ≠ k := fun h =>
      hk q (List.mem_cons_self q ps) h.symm
    show RegParams.countKey ((PKey.byParam q.pid, f q) ::
      ps.map (fun q => (PKey.byParam q.pid, f q))) k = 0
    simp only [RegParams.countKey, hne, if_false, Nat.zero_add]
    exact ih (fun r hr => hk r (List.mem_cons_of_mem q hr))

theorem countKey_paramMap_one (f : Param → ParamDict) (ps : List Param) (p : Param)
    (hp : p ∈ ps) (hids : (ps.map Param.pid).Nodup) :
    RegParams.countKey (ps.map (fun q => (PKey.byParam q.pid, f q))) (PKey.byParam p.pid) =
      1 := by
  induction ps with
  | nil => cases hp
  | cons q ps ih =>
    simp only [List.map_cons, List.nodup_cons] at hids
    rcases List.mem_cons.mp hp with hpq | hp'
    · subst hpq
      show RegParams.countKey ((PKey.byParam p.pid, f p) ::
        ps.map (fun q => (PKey.byParam q.pid, f q))) (PKey.byParam p.pid) = 1
      simp only [RegParams.countKey, if_pos rfl]
      have hzero : RegParams.countKey (ps.map (fun q => (PKey.byParam q.pid, f q)))
          (PKey.byParam p.pid) = 0 := by
        apply countKey_paramMap_zero
        intro r hr hcontra
        apply hids.1
        have : p.pid = r.pid := by
          injection hcontra
        rw [this]
        exact List.mem_map_of_mem Param.pid hr
      rw [hzero]
      simp
    · have hne : PKey.byParam q.pid ≠ PKey.byParam p.pid := by
        intro hcontra
        apply hids.1
        have : q.pid = p.pid := by
          injection hcontra
        rw [this]
        exact List.mem_map_of_mem Param.pid hp'
      show RegParams.countKey ((PKey.byParam q.pid, f q) ::
        ps.map (fun q => (PKey.byParam q.pid, f q))) (PKey.byParam p.pid) = 1
      simp only [RegParams.countKey, hne, if_false, Nat.zero_add]
      rw [ih hp' hids.2]

theorem across_fold_ok (dev : Device) (fl : List String) (ps : List Param) (rp₀ : RegParams)
    (hrec : ∀ p ∈ ps, ¬ p.name ∈ fl → (rp₀.find (PKey.byParam p.pid)).isSome = true)
    (hids : (ps.map Param.pid).Nodup) :
    ∃ rp₂, pyFoldl (across_step dev fl) rp₀ ps = .ok rp₂ ∧
      (∀ p ∈ ps, ¬ p.name ∈ fl → ∃ d₀, rp₀.find (PKey.byParam p.pid) = some d₀ ∧
        rp₂.find (PKey.byParam p.pid) =
          some ⟨(torchZeros p.data.shape).to dev, (p.data.clone).to dev, some d₀.omega⟩) ∧
      (∀ k, (∀ p ∈ ps, ¬ p.name ∈ fl → k ≠ PKey.byParam p.pid) →
        rp₂.find k = rp₀.find k) := by
  induction ps generalizing rp₀ with
  | nil =>
    refine ⟨rp₀, rfl, ?_, ?_⟩
    · intro p hp
      cases hp
    · intro k _
      rfl
  | cons p ps ih =>
    simp only [List.map_cons, List.nodup_cons] at hids
    by_cases hpn : p.name ∈ fl
    · have hstep : across_step dev fl rp₀ p = .ok rp₀ := by
        simp [across_step, hpn]
      obtain ⟨rp₂, hok, h2, h3⟩ :=
        ih rp₀ (fun q hq hqn => hrec q (List.mem_cons_of_mem p hq) hqn) hids.2
      refine ⟨rp₂, ?_, ?_, ?_⟩
      · simp only [pyFoldl, hstep]
        exact hok
      · intro q hq hqn
        rcases List.mem_cons.mp hq with hqp | hq'
        · subst hqp
          exact absurd hpn hqn
        · exact h2 q hq' hqn
      · intro k hk
        exact h3 k (fun q hq hqn => hk q (List.mem_cons_of_mem p hq) hqn)
    · have hs := hrec p (List.mem_cons_self p ps) hpn
      obtain ⟨d₀, hd₀⟩ := Option.isSome_iff_exists.mp hs
      have hstep : across_step dev fl rp₀ p =
          .ok (rp₀.insert (PKey.byParam p.pid)
            ⟨(torchZeros p.data.shape).to dev, (p.data.clone).to dev, some d₀.omega⟩) := by
        simp [across_step, hpn, hd₀]
      have hne : ∀ q ∈ ps, PKey.byParam p.pid ≠ PKey.byParam q.pid := by
        intro q hq hcontra
        apply hids.1
        have : p.pid = q.pid := by
          injection hcontra
        rw [this]
        exact List.mem_map_of_mem Param.pid hq
      have hrec' : ∀ q ∈ ps, ¬ q.name ∈ fl →
          ((rp₀.insert (PKey.byParam p.pid)
            ⟨(torchZeros p.data.shape).to dev, (p.data.clone).to dev, some d₀.omega⟩).find
            (PKey.byParam q.pid)).isSome = true := by
        intro q hq hqn
        rw [RegParams.find_insert_ne _ _ _ _ (hne q hq)]
        exact hrec q (List.mem_cons_of_mem p hq) hqn
      obtain ⟨rp₂, hok, h2, h3⟩ := ih _ hrec' hids.2
      refine ⟨rp₂, ?_, ?_, ?_⟩
      · simp only [pyFoldl, hstep]
        exact hok
      · intro q hq hqn
        rcases List.mem_cons.mp hq with hqp | hq'
        · subst hqp
          refine ⟨d₀, hd₀, ?_⟩
          rw [h3 _ (fun r hr hrn => hne r hr), RegParams.find_insert_self]
        · obtain ⟨d₀', hd₀', hfound⟩ := h2 q hq' hqn
          rw [RegParams.find_insert_ne _ _ _ _ (hne q hq')] at hd₀'
          exact ⟨d₀', hd₀', hfound⟩
      · intro k hk
        rw [h3 k (fun q hq hqn => hk q (List.mem_cons_of_mem p hq) hqn)]
        exact RegParams.find_insert_ne _ _ _ _
          (Ne.symm (hk p (List.mem_cons_self p ps) hpn))

theorem across_fold_ok_find (dev : Device) (fl : List String) (ps : List Param)
    (rp₀ rp₂ : RegParams) (hids : (ps.map Param.pid).Nodup)
    (h : pyFoldl (across_step dev fl) rp₀ ps = .ok rp₂) :
    ∀ p ∈ ps, ¬ p.name ∈ fl → (rp₀.find (PKey.byParam p.pid)).isSome = true := by
  induction ps generalizing rp₀ with
  | nil =>
    intro p hp
    cases hp
  | cons p ps ih =>
    simp only [List.map_cons, List.nodup_cons] at hids
    intro q hq hqn
    by_cases hpn : p.name ∈ fl
    · have hstep : across_step dev fl rp₀ p = .ok rp₀ := by
        simp [across_step, hpn]
      simp only [pyFoldl, hstep] at h
      rcases List.mem_cons.mp hq with hqp | hq'
      · subst hqp
        exact absurd hpn hqn
      · exact ih rp₀ hids.2 h q hq' hqn
    · rcases hfind : rp₀.find (PKey.byParam p.pid) with _ | d₀
      · have hstep : across_step dev fl rp₀ p = .error (PyErr.keyError p.name) := by
          simp [across_step, hpn, hfind]
        simp only [pyFoldl, hstep] at h
        cases h
      · have hstep : across_step dev fl rp₀ p =
            .ok (rp₀.insert (PKey.byParam p.pid)
              ⟨(torchZeros p.data.shape).to dev, (p.data.clone).to dev, some d₀.omega⟩) := by
          simp [across_step, hpn, hfind]
        simp only [pyFoldl, hstep] at h
        rcases List.mem_cons.mp hq with hqp | hq'
        · subst hqp
          rw [hfind]
          rfl
        · have hne : PKey.byParam p.pid ≠ PKey.byParam q.pid := by
            intro hcontra
            apply hids.1
            have : p.pid = q.pid := by
              injection hcontra
            rw [this]
            exact List.mem_map_of_mem Param.pid hq'
          have := ih _ hids.2 h q hq' hqn
          rwa [RegParams.find_insert_ne _ _ _ _ hne] at this

theorem RegParams.mem_insert (rp : RegParams) (k : PKey) (v : ParamDict)
    (kv : PKey × ParamDict) (h : kv ∈ rp.insert k v) : kv ∈ rp ∨ kv = (k, v) := by
  induction rp with
  | nil =>
    simp [RegParams.insert] at h
    right
    exact h
  | cons kv' rest ih =>
    obtain ⟨k', v'⟩ := kv'
    by_cases h' : k' = k
    · simp only [RegParams.insert, h', if_pos] at h
      rcases List.mem_cons.mp h with heq | hmem
      · right
        exact heq
      · left
        exact List.mem_cons_of_mem _ hmem
    · simp only [RegParams.insert, h', if_false] at h
      rcases List.mem_cons.mp h with heq | hmem
      · left
        rw [heq]
        exact List.mem_cons_self _ _
      · rcases ih hmem with hl | hr
        · left
          exact List.mem_cons_of_mem _ hl
        · right
          exact hr

theorem across_fold_byParam (dev : Device) (fl : List String) (ps : List Param)
    (rp₀ rp₂ : RegParams) (h : pyFoldl (across_step dev fl) rp₀ ps = .ok rp₂)
    (h₀ : ∀ kv ∈ rp₀, ∃ pid, kv.1 = PKey.byParam pid) :
    ∀ kv ∈ rp₂, ∃ pid, kv.1 = PKey.byParam pid := by
  induction ps generalizing rp₀ with
  | nil =>
    simp only [pyFoldl] at h
    injection h with h
    rw [← h]
    exact h₀
  | cons p ps ih =>
    by_cases hpn : p.name ∈ fl
    · have hstep : across_step dev fl rp₀ p = .ok rp₀ := by
        simp [across_step, hpn]
      simp only [pyFoldl, hstep] at h
      exact ih rp₀ h h₀
    · rcases hfind : rp₀.find (PKey.byParam p.pid) with _ | d₀
      · have hstep : across_step dev fl rp₀ p = .error (PyErr.keyError p.name) := by
          simp [across_step, hpn, hfind]
        simp only [pyFoldl, hstep] at h
        cases h
      · have hstep : across_step dev fl rp₀ p =
            .ok (rp₀.insert (PKey.byParam p.pid)
              ⟨(torchZeros p.data.shape).to dev, (p.data.clone).to dev, some d₀.omega⟩) := by
          simp [across_step, hpn, hfind]
        simp only [pyFoldl, hstep] at h
        apply ih _ h
        intro kv hkv
        rcases RegParams.mem_insert _ _ _ _ hkv with hmem | heq
        · exact h₀ kv hmem
        · rw [heq]
          exact ⟨p.pid, rfl⟩

theorem find_byName_none (rp : RegParams) (s : String)
    (h : ∀ kv ∈ rp, ∃ pid, kv.1 = PKey.byParam pid) :
    rp.find (PKey.byName s) = none := by
  induction rp with
  | nil => rfl
  | cons kv rest ih =>
    obtain ⟨k', v'⟩ := kv
    obtain ⟨pid, hpid⟩ := h (k', v') (List.mem_cons_self _ _)
    simp only at hpid
    subst hpid
    show RegParams.find ((PKey.byParam pid, v') :: rest) (PKey.byName s) = none
    simp only [RegParams.find]
    rw [if_neg (by simp)]
    exact ih (fun kv hkv => h kv (List.mem_cons_of_mem _ hkv))

theorem init_store_byParam (m : Model) (use_gpu : Bool) (F : List String)
    (hids : (m.params.map Param.pid).Nodup) :
    ∀ kv ∈ (init_reg_params m use_gpu F).reg_params, ∃ pid, kv.1 = PKey.byParam pid := by
  rw [init_reg_params_store m use_gpu F hids]
  intro kv hkv
  simp only [List.mem_map] at hkv
  obtain ⟨p, _, hp⟩ := hkv
  exact ⟨p.pid, by rw [← hp]⟩

theorem across_ok_elim (m : Model) (use_gpu : Bool) (fl : List String) (m₂ : Model)
    (h : init_reg_params_across_tasks m use_gpu fl = .ok m₂) :
    ∃ rp₂, pyFoldl (across_step (torch_device use_gpu) fl) m.reg_params m.params = .ok rp₂ ∧
      m₂ = { m with reg_params := rp₂ } := by
  have h2 : (match pyFoldl (across_step (torch_device use_gpu) fl) m.reg_params m.params with
      | Except.error e => (Except.error e : Except PyErr Model)
      | Except.ok rp₂ => Except.ok { m with reg_params := rp₂ }) = Except.ok m₂ := h
  rcases hfold : pyFoldl (across_step (torch_device use_gpu) fl) m.reg_params m.params with
    e | rp₂
  · rw [hfold] at h2
    cases h2
  · rw [hfold] at h2
    injection h2 with h2
    exact ⟨rp₂, rfl, h2.symm⟩

theorem across_ok_params (m : Model) (use_gpu : Bool) (fl : List String) (m₂ : Model)
    (h : init_reg_params_across_tasks m use_gpu fl = .ok m₂) : m₂.params = m.params := by
  obtain ⟨rp₂, _, hm⟩ := across_ok_elim m use_gpu fl m₂ h
  rw [hm]

theorem across_ok_find (m : Model) (use_gpu : Bool) (fl : List String)
    (hids : (m.params.map Param.pid).Nodup) (m₂ : Model)
    (h : init_reg_params_across_tasks m use_gpu fl = .ok m₂)
    (p : Param) (hp : p ∈ m.params) (hpn : ¬ p.name ∈ fl) :
    ∃ d₀, m.reg_params.find (PKey.byParam p.pid) = some d₀ ∧
      m₂.reg_params.find (PKey.byParam p.pid) =
        some ⟨(torchZeros p.data.shape).to (torch_device use_gpu),
          (p.data.clone).to (torch_device use_gpu), some d₀.omega⟩ := by
  obtain ⟨rp₂, hfold, hm⟩ := across_ok_elim m use_gpu fl m₂ h
  have hrec := across_fold_ok_find _ _ _ _ _ hids hfold
  obtain ⟨rp₂', hok, h2, _⟩ := across_fold_ok (torch_device use_gpu) fl m.params
    m.reg_params hrec hids
  rw [hok] at hfold
  injection hfold with hfold
  subst hm
  subst hfold
  obtain ⟨d₀, hd₀, hfound⟩ := h2 p hp hpn
  exact ⟨d₀, hd₀, hfound⟩

theorem across_ok_untouched (m : Model) (use_gpu : Bool) (fl : List String)
    (hids : (m.params.map Param.pid).Nodup) (m₂ : Model)
    (h : init_reg_params_across_tasks m use_gpu fl = .ok m₂) (k : PKey)
    (hk : ∀ q ∈ m.params, ¬ q.name ∈ fl → k ≠ PKey.byParam q.pid) :
    m₂.reg_params.find k = m.reg_params.find k := by
  obtain ⟨rp₂, hfold, hm⟩ := across_ok_elim m use_gpu fl m₂ h
  have hrec := across_fold_ok_find _ _ _ _ _ hids hfold
  obtain ⟨rp₂', hok, _, h3⟩ := across_fold_ok (torch_device use_gpu) fl m.params
    m.reg_params hrec hids
  rw [hok] at hfold
  injection hfold with hfold
  subst hm
  subst hfold
  exact h3 k hk

theorem filter_pids_nodup (ps : List Param) (pred : Param → Bool)
    (hids : (ps.map Param.pid).Nodup) :
    ((ps.filter pred).map Param.pid).Nodup :=
  List.Nodup.sublist (List.Sublist.map Param.pid (List.filter_sublist ps)) hids

theorem init_find_some (m : Model) (use_gpu : Bool) (F : List String)
    (hids : (m.params.map Param.pid).Nodup) (p : Param) (hp : p ∈ m.params)
    (hF : ¬ p.name ∈ F) :
    (init_reg_params m use_gpu F).reg_params.find (PKey.byParam p.pid) =
      some ⟨(torchZeros p.data.shape).to (torch_device use_gpu), p.data.clone, none⟩ := by
  rw [init_reg_params_store m use_gpu F hids]
  exact find_paramMap _ _ p (List.mem_filter.mpr ⟨hp, by simp [hF]⟩)
    (filter_pids_nodup _ _ hids)

theorem init_find_none (m : Model) (use_gpu : Bool) (F : List String)
    (hids : (m.params.map Param.pid).Nodup) (p : Param) (hp : p ∈ m.params)
    (hF : p.name ∈ F) :
    (init_reg_params m use_gpu F).reg_params.find (PKey.byParam p.pid) = none := by
  rw [init_reg_params_store m use_gpu F hids]
  apply find_paramMap_none
  intro q hq hcontra
  have hq' := List.mem_filter.mp hq
  have hqn : ¬ q.name ∈ F := by
    have := hq'.2
    simp at this
    exact this
  have hpid : p.pid = q.pid := by
    injection hcontra
  have hpq : p = q := List.inj_on_of_nodup_map hids hp hq'.1 hpid
  rw [hpq] at hF
  exact hqn hF

theorem init_countKey_one (m : Model) (use_gpu : Bool) (F : List String)
    (hids : (m.params.map Param.pid).Nodup) (p : Param) (hp : p ∈ m.params)
    (hF : ¬ p.name ∈ F) :
    (init_reg_params m use_gpu F).reg_params.countKey (PKey.byParam p.pid) = 1 := by
  rw [init_reg_params_store m use_gpu F hids]
  exact countKey_paramMap_one _ _ p (List.mem_filter.mpr ⟨hp, by simp [hF]⟩)
    (filter_pids_nodup _ _ hids)

theorem init_params_eq (m : Model) (use_gpu : Bool) (F : List String) :
    (init_reg_params m use_gpu F).params = m.params := rfl

theorem consolidate_ok_elim (m : Model) (use_gpu : Bool) (m₃ : Model)
    (h : consolidate_reg_params m use_gpu = .ok m₃) :
    ∃ rp, pyFoldl consolidate_step m.reg_params m.params = .ok rp ∧
      m₃ = { m with reg_params := rp } := by
  have h2 : (match pyFoldl consolidate_step m.reg_params m.params with
      | Except.error e => (Except.error e : Except PyErr Model)
      | Except.ok rp => Except.ok { m with reg_params := rp }) = Except.ok m₃ := h
  rcases hfold : pyFoldl consolidate_step m.reg_params m.params with e | rp
  · rw [hfold] at h2
    cases h2
  · rw [hfold] at h2
    injection h2 with h2
    exact ⟨rp, rfl, h2.symm⟩

theorem consolidate_ok_of_byParam (m : Model) (use_gpu : Bool) (m₃ : Model)
    (h : consolidate_reg_params m use_gpu = .ok m₃)
    (hkeys : ∀ kv ∈ m.reg_params, ∃ pid, kv.1 = PKey.byParam pid) :
    m.params = [] ∧ m₃ = { m with reg_params := m.reg_params } := by
  obtain ⟨rp, hfold, hm⟩ := consolidate_ok_elim m use_gpu m₃ h
  rcases hps : m.params with _ | ⟨p, rest⟩
  · rw [hps] at hfold
    simp only [pyFoldl] at hfold
    injection hfold with hfold
    refine ⟨rfl, ?_⟩
    rw [hm, hfold, hps]
  · rw [hps] at hfold
    have hstep : consolidate_step m.reg_params p = .error (PyErr.keyError p.name) := by
      unfold consolidate_step
      rw [find_byName_none m.reg_params p.name hkeys]
    simp only [pyFoldl, hstep] at hfold
    cases hfold

theorem convKeys_freezeBase (m : FModel) : convKeys (freezeBase m) = convKeys m := by
  show (((m.features.map (fun L => { L with params := setGrad L.params false })).enum.filter
      (fun (x : Nat × FLayer) => x.2.isConv)).map (fun (x : Nat × FLayer) => toString x.1)) =
    convKeys m
  rw [List.enum_map]
  rw [List.filter_map]
  rw [List.map_map]
  have hP : ∀ x ∈ m.features.enum,
      ((fun (x : Nat × FLayer) => x.2.isConv) ∘
        Prod.map id (fun L => { L with params := setGrad L.params false })) x =
      (fun (x : Nat × FLayer) => x.2.isConv) x := by
    intro x _
    simp [Prod.map_snd]
  rw [List.filter_congr hP]
  have hF : ∀ x ∈ m.features.enum.filter (fun (x : Nat × FLayer) => x.2.isConv),
      ((fun (x : Nat × FLayer) => toString x.1) ∘
        Prod.map id (fun L => { L with params := setGrad L.params false })) x =
      (fun (x : Nat × FLayer) => toString x.1) x := by
    intro x _
    simp [Prod.map_fst]
  rw [List.map_congr_left hF]
  rfl

theorem pyGetNeg_ok (tl : List String) (num : Nat) (h1 : 1 ≤ num) (h2 : num ≤ tl.length) :
    pyGetNeg tl num = .ok (tl.getD (tl.length - num) "") := by
  unfold pyGetNeg
  rw [dif_pos ⟨h1, h2⟩]
  congr 1
  rw [List.getD_eq_getElem tl "" (by omega)]
  simp [List.get_eq_getElem]

theorem cflGo_eq (tl : List String) (nums : List Nat)
    (hnums : ∀ n ∈ nums, 1 ≤ n ∧ n ≤ tl.length) :
    ∀ (m : FModel) (fl : List String),
    ∃ m', cflGo tl nums m fl = .ok (m', fl ++ nums.flatMap
      (fun num => ["features." ++ tl.getD (tl.length - num) "" ++ "weight",
        "features." ++ tl.getD (tl.length - num) "" ++ "bias"])) := by
  induction nums with
  | nil =>
    intro m fl
    exact ⟨m, by simp [cflGo]⟩
  | cons num nums ih =>
    intro m fl
    obtain ⟨hn1, hn2⟩ := hnums num (List.mem_cons_self num nums)
    obtain ⟨m', hm'⟩ := ih (fun n hn => hnums n (List.mem_cons_of_mem num hn))
      (setFeatureLayerTrainable m (tl.getD (tl.length - num) ""))
      (fl ++ ["features." ++ tl.getD (tl.length - num) "" ++ "weight",
        "features." ++ tl.getD (tl.length - num) "" ++ "bias"])
    refine ⟨m', ?_⟩
    simp only [cflGo, pyGetNeg_ok tl num hn1 hn2]
    rw [hm']
    simp [List.flatMap_cons, List.append_assoc]

theorem rangeNeg_eq_dropReverse (tl : List String) (k : Nat) (hk : k ≤ tl.length) :
    (List.range' 1 k).map (fun num => tl.getD (tl.length - num) "") =
      (tl.drop (tl.length - k)).reverse := by
  induction k with
  | zero =>
    simp [List.drop_length]
  | succ k ih =>
    have hk' : k ≤ tl.length := by omega
    have hrange : List.range' 1 (k + 1) = List.range' 1 k ++ [1 + k] := by
      have := @List.range'_concat 1 1 k
      simpa using this
    rw [hrange, List.map_append, ih hk']
    have hlt : tl.length - (k + 1) < tl.length := by omega
    rw [List.drop_eq_getElem_cons hlt]
    have hsucc : tl.length - (k + 1) + 1 = tl.length - k := by omega
    rw [hsucc]
    simp only [List.reverse_cons]
    congr 1
    simp only [List.map_cons, List.map_nil]
    congr 1
    have : tl.length - (1 + k) = tl.length - (k + 1) := by omega
    rw [this, List.getD_eq_getElem tl "" hlt]

theorem create_freeze_layers_eq (m : FModel) (k : Nat) (h1 : 1 ≤ k)
    (h2 : k ≤ (convKeys m).length) :
    ∃ m', create_freeze_layers m k = .ok (CFLResult.modelAndList m'
      (((convKeys m).drop ((convKeys m).length - k)).reverse.flatMap
        (fun key => ["features." ++ key ++ "weight", "features." ++ key ++ "bias"]))) := by
  have hnums : ∀ n ∈ List.range' 1 k, 1 ≤ n ∧ n ≤ (convKeys m).length := by
    intro n hn
    have := List.mem_range'_1.mp hn
    omega
  obtain ⟨m', hm'⟩ := cflGo_eq (convKeys m) (List.range' 1 k) hnums (freezeBase m) []
  have hflat : (List.range' 1 k).flatMap
      (fun num => ["features." ++ (convKeys m).getD ((convKeys m).length - num) "" ++ "weight",
        "features." ++ (convKeys m).getD ((convKeys m).length - num) "" ++ "bias"]) =
      ((convKeys m).drop ((convKeys m).length - k)).reverse.flatMap
        (fun key => ["features." ++ key ++ "weight", "features." ++ key ++ "bias"]) := by
    rw [List.flatMap_def, List.flatMap_def, ← rangeNeg_eq_dropReverse (convKeys m) k h2,
      List.map_map]
    rfl
  refine ⟨m', ?_⟩
  unfold create_freeze_layers
  have hk0 : (k == 0) = false := by
    simp
    omega
  rw [hk0]
  simp only [Bool.false_eq_true, if_false]
  rw [convKeys_freezeBase m]
  rw [hm']
  rw [List.nil_append, hflat]

/-- C1: the claim says consolidate_reg_params replaces omega by
previous_omega + omega and removes previous_omega for every record holding a
previous_omega field.  The code instead reads the record with
reg_params[name] while the store is keyed by the parameter object, so the
call raises KeyError on the first parameter: here on a one-parameter model
whose record does hold prev_omega (first conjunct), both directly and at the
end of the init / across-tasks / consolidate lifecycle. -/
theorem c1_consolidate_raises_key_error :
    ((wModelPrev.reg_params.find (PKey.byParam 0)).map (fun d => d.prev_omega.isSome) =
      some true) ∧
    consolidate_reg_params wModelPrev false = .error (PyErr.keyError "classifier.1.weight") ∧
    (match init_reg_params_across_tasks (init_reg_params wModel false []) false [] with
     | .ok m₂ => consolidate_reg_params m₂ false
     | .error e => .error e) = .error (PyErr.keyError "classifier.1.weight") :=
  ⟨rfl, rfl, rfl⟩

/-- C4: the claim describes the norm estimator's per-batch forward pass,
squared-norm scalar, single backward pass and single accumulation step.  The
code never gets there: on the first batch it reads the name use_gpu, which
is unbound in mas_utils' module scope, raising NameError; and even with
use_gpu supplied as a parameter (the spec's prescribed reading), line 178
deletes squared_l2_norm immediately before line 180 sums it, raising
NameError again, so no backward pass or optimizer step ever runs. -/
theorem c4_norm_estimator_raises_name_error :
    compute_omega_grads_norm (fun x => x) wNModel ⟨[wBatch]⟩ =
      .error (PyErr.nameError "use_gpu") ∧
    compute_omega_grads_norm_explicit (fun x => x) false wNModel ⟨[wBatch]⟩ =
      .error (PyErr.nameError "squared_l2_norm") :=
  ⟨rfl, rfl⟩

/-- C5: the claim describes the vector estimator's per-unit backward passes
with graph retention on all but the last unit.  The code never gets there:
it first iterates the name dset_loaders, unbound in mas_utils' module scope,
raising NameError before any batch; and with the dataloader and use_gpu
supplied explicitly (the spec's prescribed reading), the retain-graph test
on line 227 reads the unbound name node_no (the loop variable is unit_no),
raising NameError on the first output unit. -/
theorem c5_vector_estimator_raises_name_error :
    compute_omega_grads_vector wNModel [wBatch] = .error (PyErr.nameError "dset_loaders") ∧
    compute_omega_grads_vector_explicit false wNModel [wBatch] =
      .error (PyErr.nameError "node_no") :=
  ⟨rfl, rfl⟩

/-- C9: the claim says main.py accepts --num_freeze_layers with default 2
and passes the configured value to every mas_train call.  The parser does
store the flag (default 2, explicit values honored) under the attribute
num_freeze_layers, but line 37 reads args.freeze_layers, an attribute that
was never set, so the read raises AttributeError and the value is never
passed anywhere. -/
theorem c9_entry_point_flag_bug :
    (parse_args none none none).getattr "num_freeze_layers" = .ok (PyVal.int 2) ∧
    (parse_args none none (some 5)).getattr "num_freeze_layers" = .ok (PyVal.int 5) ∧
    main_no_of_layers (parse_args none none none) =
      .error (PyErr.attributeError "freeze_layers") :=
  ⟨rfl, rfl, rfl⟩

/-- C8 counterexample: the claim says create_freeze_layers returns both the
model reference and the freeze list for every non-negative count and in
particular returns the model with an empty freeze list at count zero.  At
count zero on a concrete model it returns the bare empty list, a result
that carries no model reference. -/
theorem c8_zero_count_counterexample :
    create_freeze_layers wFModel 0 = .ok CFLResult.emptyList ∧
    CFLResult.hasModel CFLResult.emptyList = false :=
  ⟨rfl, rfl⟩

/-- C2: for every count k with 1 <= k <= the number of Conv2d children of
the feature stack, create_freeze_layers produces a freeze list of exactly
2*k entries of the form "features." + key + "weight" or
"features." + key + "bias" with no dot before the suffix, the selected keys
being exactly the last k convolutional keys of the stack in forward order
(appended from the end, i.e. in reverse). -/
theorem c2_freeze_list (m : FModel) (k : Nat) (h1 : 1 ≤ k)
    (h2 : k ≤ (convKeys m).length) : FreezeListSpec m k := by
  obtain ⟨m', hm'⟩ := create_freeze_layers_eq m k h1 h2
  refine ⟨m', _, hm', ?_, rfl, ?_⟩
  · rw [List.length_flatMap]
    have hmap : (((convKeys m).drop ((convKeys m).length - k)).reverse.map
        (List.length ∘ (fun key =>
          ["features." ++ key ++ "weight", "features." ++ key ++ "bias"]))) =
        (((convKeys m).drop ((convKeys m).length - k)).reverse.map (fun _ => 2)) := rfl
    rw [hmap, List.map_const', List.sum_replicate, List.length_reverse, List.length_drop]
    have hlen : (convKeys m).length - ((convKeys m).length - k) = k := by omega
    rw [hlen, smul_eq_mul, Nat.mul_comm]
  · intro e he
    obtain ⟨key, hkey, hin⟩ := List.mem_flatMap.mp he
    rw [List.mem_reverse] at hkey
    refine ⟨key, hkey, ?_⟩
    rcases List.mem_cons.mp hin with h | hin2
    · left
      exact h
    · rcases List.mem_cons.mp hin2 with h | h
      · right
        exact h
      · cases h

/-- Witness for C2 at a concrete model with three convolutional layers and
k = 2. -/
theorem c2_freeze_list_witness :
    1 ≤ 2 ∧ 2 ≤ (convKeys wFModel).length ∧ FreezeListSpec wFModel 2 :=
  ⟨by decide, by decide, c2_freeze_list wFModel 2 (by decide) (by decide)⟩

/-- C3: after init_reg_params with freeze list F the store holds exactly one
record per trainable parameter whose qualified name is not in F and none for
parameters named in F; every record of a non-excluded parameter carries a
zero omega of the parameter's shape and a detached copy of the parameter's
current value as init_val.  The hypothesis is that distinct parameters are
distinct objects, which Python guarantees for named_parameters(). -/
theorem c3_init_store (m : Model) (use_gpu : Bool) (F : List String)
    (hids : (m.params.map Param.pid).Nodup) : InitStoreSpec m use_gpu F := by
  refine ⟨?_, ?_, ?_⟩
  · intro p hp _ hF
    exact init_countKey_one m use_gpu F hids p hp hF
  · intro p hp hF
    exact ⟨_, init_find_some m use_gpu F hids p hp hF, rfl, rfl, rfl, rfl, rfl⟩
  · intro p hp hF
    exact init_find_none m use_gpu F hids p hp hF

/-- Witness for C3 at a concrete two-parameter model with the second
parameter's name in the freeze list. -/
theorem c3_init_store_witness :
    (wModel.params.map Param.pid).Nodup ∧ InitStoreSpec wModel true ["features.0.weight"] :=
  ⟨by decide, c3_init_store wModel true ["features.0.weight"] (by decide)⟩

/-- C6: under the precondition that every non-excluded parameter already has
a store record (and that distinct parameters are distinct objects),
init_reg_params_across_tasks succeeds and leaves, for each such parameter, a
record whose prev_omega is the omega held before the call, whose omega is a
fresh zero tensor of the parameter's shape, and whose init_val carries the
parameter's current value at the time of the call. -/
theorem c6_across_tasks (m : Model) (use_gpu : Bool) (fl : List String)
    (hrec : ∀ p ∈ m.params, ¬ p.name ∈ fl →
      (m.reg_params.find (PKey.byParam p.pid)).isSome = true)
    (hids : (m.params.map Param.pid).Nodup) : AcrossTasksSpec m use_gpu fl := by
  obtain ⟨rp₂, hok, h2, _⟩ :=
    across_fold_ok (torch_device use_gpu) fl m.params m.reg_params hrec hids
  have hmodel : init_reg_params_across_tasks m use_gpu fl =
      .ok { m with reg_params := rp₂ } := by
    show (match pyFoldl (across_step (torch_device use_gpu) fl) m.reg_params m.params with
      | Except.error e => (Except.error e : Except PyErr Model)
      | Except.ok rp => Except.ok { m with reg_params := rp }) = _
    rw [hok]
  refine ⟨_, hmodel, ?_⟩
  intro p hp hpn
  obtain ⟨d₀, hd₀, hfound⟩ := h2 p hp hpn
  exact ⟨d₀, _, hd₀, hfound, rfl, rfl, rfl, rfl, rfl⟩

/-- Witness for C6 at a concrete two-parameter model whose store holds a
record for both parameters. -/
theorem c6_across_tasks_witness :
    (∀ p ∈ wModelS.params, ¬ p.name ∈ ([] : List String) →
      (wModelS.reg_params.find (PKey.byParam p.pid)).isSome = true) ∧
    (wModelS.params.map Param.pid).Nodup ∧
    AcrossTasksSpec wModelS false [] :=
  ⟨by decide, by decide, c6_across_tasks wModelS false [] (by decide) (by decide)⟩

/-- C7: every store record satisfies the shape invariant after
init_reg_params, after any completing init_reg_params_across_tasks on that
state, and after any completing consolidate_reg_params on the resulting
state (consolidate_reg_params completes only on parameterless models, since
its name-keyed read raises KeyError otherwise; see C1). -/
theorem c7_lifecycle_shapes (m : Model) (u₁ : Bool) (F₁ : List String)
    (u₂ : Bool) (F₂ : List String) (hids : (m.params.map Param.pid).Nodup) :
    LifecycleShapeSpec m u₁ F₁ u₂ F₂ := by
  have part1 : ShapeInv (init_reg_params m u₁ F₁) := by
    intro p hp
    by_cases hF : p.name ∈ F₁
    · rw [init_find_none m u₁ F₁ hids p hp hF]
      rfl
    · rw [init_find_some m u₁ F₁ hids p hp hF]
      simp [shapeOK, Tensor.to, torchZeros, Tensor.clone]
  have part2 : ∀ m₂, init_reg_params_across_tasks (init_reg_params m u₁ F₁) u₂ F₂ =
      .ok m₂ → ShapeInv m₂ := by
    intro m₂ h p hp
    have hparams := across_ok_params (init_reg_params m u₁ F₁) u₂ F₂ m₂ h
    rw [hparams] at hp
    by_cases hF₂ : p.name ∈ F₂
    · have hk : ∀ q ∈ (init_reg_params m u₁ F₁).params, ¬ q.name ∈ F₂ →
          PKey.byParam p.pid ≠ PKey.byParam q.pid := by
        intro q hq hqn hcontra
        have hpid : p.pid = q.pid := by
          injection hcontra
        have hpq : p = q := List.inj_on_of_nodup_map hids hp hq hpid
        rw [hpq] at hF₂
        exact hqn hF₂
      rw [across_ok_untouched (init_reg_params m u₁ F₁) u₂ F₂ hids m₂ h
        (PKey.byParam p.pid) hk]
      exact part1 p hp
    · obtain ⟨d₀, hd₀, hfound⟩ :=
        across_ok_find (init_reg_params m u₁ F₁) u₂ F₂ hids m₂ h p hp hF₂
      rw [hfound]
      simp [shapeOK, Tensor.to, torchZeros, Tensor.clone]
  refine ⟨part1, part2, ?_⟩
  intro m₂ m₃ h h3
  have hkeys : ∀ kv ∈ m₂.reg_params, ∃ pid, kv.1 = PKey.byParam pid := by
    obtain ⟨rp₂, hfold, hm⟩ := across_ok_elim (init_reg_params m u₁ F₁) u₂ F₂ m₂ h
    rw [hm]
    exact across_fold_byParam (torch_device u₂) F₂ (init_reg_params m u₁ F₁).params
      (init_reg_params m u₁ F₁).reg_params rp₂ hfold (init_store_byParam m u₁ F₁ hids)
  obtain ⟨hnil, hm₃⟩ := consolidate_ok_of_byParam m₂ u₂ m₃ h3 hkeys
  intro p hp
  rw [hm₃] at hp
  have hp' : p ∈ m₂.params := hp
  rw [hnil] at hp'
  cases hp'

/-- Witness for C7 at a concrete two-parameter model. -/
theorem c7_lifecycle_shapes_witness :
    (wModel.params.map Param.pid).Nodup ∧ LifecycleShapeSpec wModel true [] false [] :=
  ⟨by decide, c7_lifecycle_shapes wModel true [] false [] (by decide)⟩

/-- C8 as amended: for counts k with 1 <= k <= the number of Conv2d
children, create_freeze_layers returns the model together with the freeze
list, whereas at count zero it returns a bare empty list that carries no
model reference. -/
theorem c8_policy_return_amended (m : FModel) (k : Nat) (h1 : 1 ≤ k)
    (h2 : k ≤ (convKeys m).length) : PolicyReturnSpec m k := by
  constructor
  · obtain ⟨m', hm'⟩ := create_freeze_layers_eq m k h1 h2
    exact ⟨m', _, hm'⟩
  · rfl

/-- Witness for the amended C8 at a concrete model with k = 2. -/
theorem c8_policy_return_witness :
    1 ≤ 2 ∧ 2 ≤ (convKeys wFModel).length ∧ PolicyReturnSpec wFModel 2 :=
  ⟨by decide, by decide, c8_policy_return_amended wFModel 2 (by decide) (by decide)⟩

/-- C10: init_reg_params stores omega on the device selected by use_gpu but
stores init_val as a clone left on the parameter's own device, so the two
tensors of one record live on different devices whenever those differ;
init_reg_params_across_tasks, by contrast, moves init_val to the selected
device as well. -/
theorem c10_device_placement (m : Model) (use_gpu : Bool) (F : List String) (p : Param)
    (hids : (m.params.map Param.pid).Nodup) (hp : p ∈ m.params) (hF : ¬ p.name ∈ F) :
    DevicePlacementSpec m use_gpu F p := by
  constructor
  · exact ⟨_, init_find_some m use_gpu F hids p hp hF, rfl, rfl, fun hne => hne⟩
  · intro m₂ h
    obtain ⟨d₀, hd₀, hfound⟩ := across_ok_find m use_gpu F hids m₂ h p hp hF
    exact ⟨_, hfound, rfl, rfl⟩

/-- Witness for C10 at a concrete model (gpu selected, parameter on cpu),
whose store also lets the across-tasks branch complete. -/
theorem c10_device_placement_witness :
    (wModelS.params.map Param.pid).Nodup ∧ wParam ∈ wModelS.params ∧
    ¬ wParam.name ∈ ([] : List String) ∧ DevicePlacementSpec wModelS true [] wParam :=
  ⟨by decide, by decide, by decide,
    c10_device_placement wModelS true [] wParam (by decide) (by decide) (by decide)⟩
